import Mathlib

/-!
Verification of the directory-size aggregation core of File-Size-Visualizer
(src/app.py) against its natural-language specification.

The filesystem is modelled as a tree of nodes.  Each node records exactly
the observable behaviour of the OS calls the program makes on it:

* a regular file records its `st_size` and whether `os.stat(path,
  follow_symlinks=False)` succeeds (`statOk`);
* a directory records whether that lstat succeeds (`statOk`) and whether
  listing it with `os.scandir`/`os.walk` succeeds (`listable`);
* a symbolic link records whether its target is a directory (`targetIsDir`,
  which decides how `os.walk` classifies it) and the `st_size` the lstat
  call reports for the link object itself (`linkSize`); on POSIX this is
  the length of the target path stored in the link (normally nonzero),
  on Windows reparse points report 0.  Symbolic links are never followed.
-/

namespace FSViz

/-- Mirror of the `ItemSize` dataclass in src/app.py. -/
structure ItemSize where
  label : String
  path : String
  size : Nat
  is_dir : Bool
  deriving Repr, DecidableEq

/-- A filesystem tree as observed by the program's OS calls. -/
inductive FSNode where
  | file (name : String) (size : Nat) (statOk : Bool)
  | dir (name : String) (statOk : Bool) (listable : Bool) (children : List FSNode)
  | symlink (name : String) (targetIsDir : Bool) (linkSize : Nat)
  deriving Repr

/-- Model of `os.path.join` for one component. -/
def joinPath (p n : String) : String := p ++ "/" ++ n

/-- Type of the optional `file_filter` callback `(path, size) -> bool`. -/
abbrev FileFilter := String → Nat → Bool

/-- Evaluation of an optional filter: `file_filter is None or file_filter(fp, size)`. -/
def passes (flt : Option FileFilter) (p : String) (sz : Nat) : Bool :=
  match flt with
  | none => true
  | some f => f p sz

/-- One directory listing as consumed by the `for f in files` loop of
`compute_dir_size`: for every entry of the walk's `files` list, its full
path and the result of `safe_stat` on it (`none` when the lstat fails). -/
abbrev Listing := List (String × Option Nat)

/-- The entries a child node contributes to its parent directory's `files`
list in `os.walk`.  Regular files always appear there; a symlink whose
target is not a directory is classified by `os.walk` as a non-directory and
also appears there (its `safe_stat` succeeds and reports `linkSize`);
directories and symlinks to directories do not appear in `files`. -/
def fileEntries (p : String) : FSNode → Listing
  | .file n sz ok => [(joinPath p n, if ok then some sz else none)]
  | .dir _ _ _ _ => []
  | .symlink n isDir ls => if isDir then [] else [(joinPath p n, some ls)]

mutual

/-- The listings `os.walk(p, topdown=True, followlinks=False)` produces for
the children of a directory at path `p`, in depth-first preorder, taking
into account the pruning loop of `compute_dir_size` (a child directory
whose `safe_stat` fails is removed from `dirs` and never descended into),
the `islink` check of `os.walk` (a symlink to a directory is never
descended into) and silent skipping of directories whose `scandir` fails. -/
def walkKids (p : String) : List FSNode → List Listing
  | [] => []
  | c :: cs => walkChild p c ++ walkKids p cs

/-- The listings contributed below one child entry of a directory at path
`p`: only a real subdirectory that passes the `safe_stat` pruning and whose
own `scandir` succeeds contributes, namely its `files` listing followed by
the listings of its subtree. -/
def walkChild (p : String) : FSNode → List Listing
  | .dir n sOk lb cs =>
      if sOk && lb then
        (cs.flatMap (fileEntries (joinPath p n))) :: walkKids (joinPath p n) cs
      else []
  | _ => []

end

/-- All listings `os.walk(p, ...)` yields for the tree rooted at `t`
(located at path `p`), in the order the `for root, dirs, files` loop of
`compute_dir_size` receives them.  The root's own lstat is never consulted
(`os.walk` goes straight to `scandir`); if the root cannot be listed (or is
not a directory) the walk yields nothing. -/
def walkRoot (p : String) : FSNode → List Listing
  | .dir _ _ lb cs => if lb then (cs.flatMap (fileEntries p)) :: walkKids p cs else []
  | _ => []

/-- Size contribution of one `files` entry in `compute_dir_size`: a failed
`safe_stat` contributes 0; otherwise the size counts iff the filter (when
present) accepts `(path, size)`. -/
def entryContrib (flt : Option FileFilter) : String × Option Nat → Nat
  | (_, none) => 0
  | (p, some sz) => if passes flt p sz then sz else 0

/-- Total the `for f in files` loop of `compute_dir_size` adds for one
directory listing. -/
def listingTotal (flt : Option FileFilter) (L : Listing) : Nat :=
  (L.map (entryContrib flt)).sum

/-- Result of running the walk loop of `compute_dir_size`. -/
structure WalkOut where
  total : Nat
  next : Nat
  visited : List String
  deriving Repr, DecidableEq

/-- The `for root, dirs, files in os.walk(...)` loop of `compute_dir_size`:
`cc i` is the value `cancel_cb()` returns at its `i`-th invocation during
the scan session (the flag is checked once per yielded listing, before the
listing is processed; `break` abandons the walk).  Returns the accumulated
total, the next check index, and the paths passed to `progress_cb` (which
is invoked once per `files` entry). -/
def runWalk (flt : Option FileFilter) (cc : Nat → Bool) :
    List Listing → Nat → Nat → WalkOut
  | [], i, acc => ⟨acc, i, []⟩
  | L :: rest, i, acc =>
      if cc i then ⟨acc, i, []⟩
      else
        let r := runWalk flt cc rest (i + 1) (acc + listingTotal flt L)
        ⟨r.total, r.next, L.map Prod.fst ++ r.visited⟩

/-- A cancellation callback that never reports cancellation (the session's
`_cancel_flag` is never set). -/
def neverCancel : Nat → Bool := fun _ => false

/-- Mirror of `compute_dir_size(path, file_filter, progress_cb, cancel_cb)`
in src/app.py, with the cancellation flag read at check index `i` onward. -/
def computeDirSize (flt : Option FileFilter) (cc : Nat → Bool)
    (p : String) (t : FSNode) (i : Nat) : WalkOut :=
  runWalk flt cc (walkRoot p t) i 0

/-- The value `compute_dir_size` returns when cancellation never fires. -/
def computeDirSizeNC (flt : Option FileFilter) (p : String) (t : FSNode) : Nat :=
  (computeDirSize flt neverCancel p t 0).total

/-- Accumulated state of the `for entry in it` loop of
`list_top_level_items`: items collected so far, the next cancellation-check
index, and the paths reported to `progress_cb`. -/
structure ScanAcc where
  items : List ItemSize
  next : Nat
  visited : List String
  deriving Repr, DecidableEq

/-- One iteration of the `os.scandir` loop of `list_top_level_items`:
symlinks are skipped (`entry.is_symlink()`); a directory entry is handed to
`compute_dir_size` unconditionally and always yields an `ItemSize` with
`is_dir=True`; a file entry is lstat-ed (size 0 when the lstat fails) and
yields an `ItemSize` iff the filter accepts it. -/
def topEntry (flt : Option FileFilter) (cc : Nat → Bool) (folder : String)
    (c : FSNode) (i : Nat) : ScanAcc :=
  match c with
  | .symlink _ _ _ => ⟨[], i, []⟩
  | .dir n sOk lb cs =>
      let r := computeDirSize flt cc (joinPath folder n) (.dir n sOk lb cs) i
      ⟨[⟨n, joinPath folder n, r.total, true⟩], r.next, r.visited⟩
  | .file n sz ok =>
      let size := if ok then sz else 0
      if passes flt (joinPath folder n) size then
        ⟨[⟨n, joinPath folder n, size, false⟩], i, []⟩
      else ⟨[], i, []⟩

/-- The whole `os.scandir` loop of `list_top_level_items` over the folder's
children, threading the session's cancellation-check index. -/
def topLoop (flt : Option FileFilter) (cc : Nat → Bool) (folder : String) :
    List FSNode → Nat → ScanAcc
  | [], i => ⟨[], i, []⟩
  | c :: cs, i =>
      let r := topEntry flt cc folder c i
      let rest := topLoop flt cc folder cs r.next
      ⟨r.items ++ rest.items, rest.next, r.visited ++ rest.visited⟩

/-- Mirror of `list_top_level_items(folder, file_filter, progress_cb,
cancel_cb)` in src/app.py.  The whole body is wrapped in
`try: ... except Exception: pass`, so when `os.scandir(folder)` fails (the
folder vanished, is inaccessible, or is not a directory) the already-empty
item list is returned and no error propagates. -/
def listTopLevelItemsFull (flt : Option FileFilter) (cc : Nat → Bool)
    (folder : String) (t : FSNode) : ScanAcc :=
  match t with
  | .dir _ _ true cs => topLoop flt cc folder cs 0
  | _ => ⟨[], 0, []⟩

/-- Items `list_top_level_items` returns when cancellation never fires. -/
def listTopLevelItemsNC (flt : Option FileFilter) (folder : String)
    (t : FSNode) : List ItemSize :=
  (listTopLevelItemsFull flt neverCancel folder t).items

/-- The per-file predicate `_ff(path, size): return size >= min_size` that
`_scan_worker` installs when threshold mode is on. -/
def geFilter (minSize : Nat) : FileFilter := fun _ s => minSize ≤ s

/-- Ordering used by `items.sort(key=lambda x: x.size, reverse=True)`:
descending by size. -/
def sizeDesc (a b : ItemSize) : Prop := b.size ≤ a.size

instance : DecidableRel sizeDesc := fun a b => Nat.decLe b.size a.size

instance : IsTotal ItemSize sizeDesc := ⟨fun a b => Nat.le_total b.size a.size⟩

instance : IsTrans ItemSize sizeDesc :=
  ⟨fun _ _ _ h₁ h₂ => Nat.le_trans h₂ h₁⟩

/-- The item list `_scan_worker` puts into the `done` message: the listing
of the folder (per-file filter installed only in threshold mode), then the
post-hoc filter `it.size >= min_size` applied to every item, then the
stable sort by size descending.  The `include_subfolders` argument is
accepted but never used by the worker (see the comment in src/app.py). -/
def scanItems (folder : String) (minSize : Nat) (includeSub : Bool)
    (thresholdMode : Bool) (cc : Nat → Bool) (t : FSNode) : List ItemSize :=
  let _ := includeSub
  let flt : Option FileFilter := if thresholdMode then some (geFilter minSize) else none
  let its := (listTopLevelItemsFull flt cc folder t).items
  let its := its.filter (fun it => minSize ≤ it.size)
  its.insertionSort sizeDesc

/-- Messages `_scan_worker` puts on the scan queue. -/
inductive ScanMsg where
  | progress (p : String)
  | done (items : List ItemSize)
  | error (reason : String)
  deriving Repr, DecidableEq

/-- Terminal messages are `done` and `error`; `progress` is not. -/
def ScanMsg.isTerminal : ScanMsg → Bool
  | .progress _ => false
  | _ => true

/-- Whether a message is the `error` terminal. -/
def ScanMsg.isErrorMsg : ScanMsg → Bool
  | .error _ => true
  | _ => false

/-- Path truncation in `_progress_cb`: long paths keep their last 57
characters behind an ellipsis. -/
def truncatePath (p : String) : String :=
  if p.length > 60 then "…" ++ p.drop (p.length - 57) else p

/-- Messages `_progress_cb` emits for one reported path (nothing when the
path is empty). -/
def progressMsg (p : String) : List ScanMsg :=
  if 0 < p.length then [.progress (truncatePath p)] else []

/-- Mirror of `_scan_worker(folder, min_size, include_subfolders,
threshold_mode)` in src/app.py: the ordered sequence of messages one scan
session puts on the queue.  The worker body wraps everything in
`try: ... except Exception as e: put(("error", str(e)))`, but every
filesystem failure is already swallowed inside `list_top_level_items` and
`compute_dir_size`, so the modelled body is total and the `error` branch is
unreachable: the session always ends with exactly one `done` message. -/
def scanWorkerEvents (folder : String) (minSize : Nat) (includeSub : Bool)
    (thresholdMode : Bool) (cc : Nat → Bool) (t : FSNode) : List ScanMsg :=
  let flt : Option FileFilter := if thresholdMode then some (geFilter minSize) else none
  let r := listTopLevelItemsFull flt cc folder t
  (r.visited.flatMap progressMsg) ++
    [.done (scanItems folder minSize includeSub thresholdMode cc t)]

mutual

/-- The specification's aggregate (spec §8, §4.1, §4.2, §7): the sum of the
sizes of all regular files reachable from the root directory without
following symbolic links, where a file whose lstat fails contributes 0
(AccessDenied/NotFound recovered as zero), a subdirectory that cannot be
stat-ed or listed contributes 0 for its whole subtree, and a symbolic link
contributes neither a file nor a directory contribution. -/
def specSum : FSNode → Nat
  | .dir _ _ lb cs => if lb then specSumKids cs else 0
  | _ => 0

/-- Sum of the spec contributions of a list of children. -/
def specSumKids : List FSNode → Nat
  | [] => 0
  | c :: cs => specSumChild c + specSumKids cs

/-- Spec contribution of one child: a stat-able regular file contributes
its size, a symlink contributes nothing, an accessible subdirectory
contributes its subtree's sum. -/
def specSumChild : FSNode → Nat
  | .file _ sz ok => if ok then sz else 0
  | .symlink _ _ _ => 0
  | .dir _ sOk lb cs => if sOk && lb then specSumKids cs else 0

end

mutual

/-- The specification's filtered aggregate (spec §8, filter correctness):
the sum restricted to reachable regular files with `size >= K`. -/
def specSumGE (k : Nat) : FSNode → Nat
  | .dir _ _ lb cs => if lb then specSumGEKids k cs else 0
  | _ => 0

/-- Sum of the filtered spec contributions of a list of children. -/
def specSumGEKids (k : Nat) : List FSNode → Nat
  | [] => 0
  | c :: cs => specSumGEChild k c + specSumGEKids k cs

/-- Filtered spec contribution of one child. -/
def specSumGEChild (k : Nat) : FSNode → Nat
  | .file _ sz ok => if ok && k ≤ sz then sz else 0
  | .symlink _ _ _ => 0
  | .dir _ sOk lb cs => if sOk && lb then specSumGEKids k cs else 0

end

mutual

/-- Whether any regular file reachable from the root directory (in the
sense of `specSum`) is stat-able and has size at least `k` ("a qualifying
file"). -/
def hasQual (k : Nat) : FSNode → Bool
  | .dir _ _ lb cs => lb && hasQualKids k cs
  | _ => false

/-- Whether some child contributes a qualifying file. -/
def hasQualKids (k : Nat) : List FSNode → Bool
  | [] => false
  | c :: cs => hasQualChild k c || hasQualKids k cs

/-- Whether one child contributes a qualifying file. -/
def hasQualChild (k : Nat) : FSNode → Bool
  | .file _ sz ok => ok && k ≤ sz
  | .symlink _ _ _ => false
  | .dir _ sOk lb cs => sOk && lb && hasQualKids k cs

end

mutual

/-- Whether a tree contains no symbolic link whose target is not a
directory.  Such links are the only nodes on which `compute_dir_size`
diverges from the specification's aggregate: `os.walk` classifies them as
non-directories, so they land in each listing's `files` list and their own
lstat size is added to the total. -/
def cleanLinks : FSNode → Bool
  | .file _ _ _ => true
  | .symlink _ isDir _ => isDir
  | .dir _ _ _ cs => cleanLinksList cs

/-- `cleanLinks` for every member of a list of children. -/
def cleanLinksList : List FSNode → Bool
  | [] => true
  | c :: cs => cleanLinks c && cleanLinksList cs

end

/-- The specification's description of one entry of `scanChildren` (spec
§4.3 post-condition): a symlink yields nothing; a non-symlink subdirectory
yields exactly one `Directory` item carrying its aggregated size,
unconditionally; a file yields one `File` item iff it passes the filter
(size 0 when its lstat fails). -/
def specTopItem (flt : Option FileFilter) (folder : String) :
    FSNode → Option ItemSize
  | .symlink _ _ _ => none
  | .dir n sOk lb cs =>
      some ⟨n, joinPath folder n,
        computeDirSizeNC flt (joinPath folder n) (.dir n sOk lb cs), true⟩
  | .file n sz ok =>
      let size := if ok then sz else 0
      if passes flt (joinPath folder n) size then
        some ⟨n, joinPath folder n, size, false⟩
      else none

/-- The `(label, size, kind)` triple of an item (spec §8, idempotence). -/
def itemTriple (it : ItemSize) : String × Nat × Bool :=
  (it.label, it.size, it.is_dir)

/-- Modelled from the spec: the `HierarchyCache` node states of §4.5
(`NotLoaded -> Loading -> Loaded`); no such cache exists in src/app.py. -/
inductive NodeState where
  | notLoaded
  | loading
  | loaded (items : List ItemSize)

/-- Modelled from the spec: the state of the on-demand expansion layer of
§4.5 — the `HierarchyCache` (keyed by canonical path), the `DrillStack` of
displayed item lists, and a count of scan sessions started (the
scan-count instrumentation double of §8); none of this exists in
src/app.py. -/
structure DrillState where
  cache : String → NodeState
  stack : List (List ItemSize)
  scanCount : Nat

/-- Modelled from the spec: `expand(node)` of §4.5.  If the node is
`Loaded`, push its cached items onto the DrillStack and return immediately
with no I/O; if it is `Loading`, ignore the request; if it is `NotLoaded`,
start one scan session (modelled synchronously: `scanned` is the item list
the session's `Done` delivers), store the items as `Loaded` and push them. -/
def expand (key : String) (scanned : List ItemSize) (s : DrillState) : DrillState :=
  match s.cache key with
  | .loaded its => { s with stack := its :: s.stack }
  | .loading => s
  | .notLoaded =>
      { cache := fun k => if k = key then .loaded scanned else s.cache k,
        stack := scanned :: s.stack,
        scanCount := s.scanCount + 1 }

/-- Modelled from the spec: `collapse(node)` of §4.5 — pop the DrillStack
with no I/O and no cache invalidation; the root frame is never popped. -/
def collapse (s : DrillState) : DrillState :=
  match s.stack with
  | [] => s
  | [top] => { s with stack := [top] }
  | _ :: rest => { s with stack := rest }

/-- Two trees represent the same unmodified filesystem observed through two
enumerations: nodes are identical except that the children of every
directory may be listed in a different order.  `PTree t t'` pairs each
child of `t` (the list `ps.map Prod.fst`) with a recursively reordered
copy (`ps.map Prod.snd`) and lets the second run enumerate those copies in
any order. -/
inductive PTree : FSNode → FSNode → Prop where
  | file : ∀ n sz ok, PTree (.file n sz ok) (.file n sz ok)
  | symlink : ∀ n d ls, PTree (.symlink n d ls) (.symlink n d ls)
  | dir : ∀ n sOk lb (ps : List (FSNode × FSNode)) (cs' : List FSNode),
      (∀ q ∈ ps, PTree q.1 q.2) → (ps.map Prod.snd).Perm cs' →
      PTree (.dir n sOk lb (ps.map Prod.fst)) (.dir n sOk lb cs')

/-- Induction over a filesystem tree with the inductive hypothesis
available for every member of a directory's children list. -/
theorem FSNode.memRec {motive : FSNode → Prop}
    (hfile : ∀ n sz ok, motive (.file n sz ok))
    (hsym : ∀ n d ls, motive (.symlink n d ls))
    (hdir : ∀ n sOk lb cs, (∀ c ∈ cs, motive c) → motive (.dir n sOk lb cs)) :
    ∀ t, motive t
  | .file n sz ok => hfile n sz ok
  | .symlink n d ls => hsym n d ls
  | .dir n sOk lb cs =>
      hdir n sOk lb cs (fun c hc =>
        have : sizeOf c < sizeOf (FSNode.dir n sOk lb cs) := by
          have h1 := List.sizeOf_lt_of_mem hc
          simp only [FSNode.dir.sizeOf_spec]
          omega
        FSNode.memRec hfile hsym hdir c)
termination_by t => sizeOf t

/-- Closed form of the walk loop when cancellation never fires: the total
is the accumulator plus the sum of all listing totals, every listing is
consumed, and every entry path is reported as progress. -/
theorem runWalk_never (flt : Option FileFilter) :
    ∀ (l : List Listing) (i acc : Nat),
      runWalk flt neverCancel l i acc =
        ⟨acc + (l.map (listingTotal flt)).sum, i + l.length,
          l.flatMap (fun L => L.map Prod.fst)⟩ := by
  intro l
  induction l with
  | nil => intro i acc; simp [runWalk]
  | cons L rest ih =>
      intro i acc
      simp only [runWalk, neverCancel, Bool.false_eq_true, ite_false, ih,
        List.map_cons, List.sum_cons, List.flatMap_cons, List.length_cons,
        WalkOut.mk.injEq]
      exact ⟨by omega, by omega, trivial⟩

/-- Running the walk loop when the cancellation flag first reads true at
the `m`-th check after the start index: only the first `m` listings are
processed, the total is the sum accumulated over them, and the next check
index advances by at most `m`. -/
theorem runWalk_cancel_at (flt : Option FileFilter) (cc : Nat → Bool) (m : Nat) :
    ∀ (l : List Listing) (i acc : Nat),
      (∀ k, k < m → cc (i + k) = false) → cc (i + m) = true →
      runWalk flt cc l i acc =
        ⟨acc + ((l.take m).map (listingTotal flt)).sum, i + min m l.length,
          (l.take m).flatMap (fun L => L.map Prod.fst)⟩ := by
  induction m with
  | zero =>
      intro l i acc _ htrue
      cases l with
      | nil => simp [runWalk]
      | cons L rest =>
          simp only [Nat.add_zero] at htrue
          simp [runWalk, htrue]
  | succ m ih =>
      intro l i acc hfalse htrue
      cases l with
      | nil => simp [runWalk]
      | cons L rest =>
          have h0 : cc i = false := by
            have := hfalse 0 (Nat.succ_pos m)
            simpa using this
          have hrest : runWalk flt cc rest (i + 1) (acc + listingTotal flt L) =
              ⟨acc + listingTotal flt L + ((rest.take m).map (listingTotal flt)).sum,
                i + 1 + min m rest.length,
                (rest.take m).flatMap (fun L => L.map Prod.fst)⟩ := by
            apply ih
            · intro k hk
              have := hfalse (k + 1) (by omega)
              simpa [Nat.add_assoc, Nat.add_comm 1 k] using this
            · have : i + 1 + m = i + (m + 1) := by omega
              rw [this]
              exact htrue
          simp only [runWalk, h0, Bool.false_eq_true, ite_false, hrest,
            List.take_succ_cons, List.map_cons, List.sum_cons,
            List.flatMap_cons, List.length_cons, WalkOut.mk.injEq]
          exact ⟨by omega, by omega, trivial⟩

/-- Value of `compute_dir_size` with no cancellation, as the sum of the
totals of all the listings the walk yields. -/
theorem computeDirSizeNC_eq_walkSum (flt : Option FileFilter) (p : String)
    (t : FSNode) :
    computeDirSizeNC flt p t = ((walkRoot p t).map (listingTotal flt)).sum := by
  simp [computeDirSizeNC, computeDirSize, runWalk_never]

/-- The combined walk contribution of one child of a directory at path
`p`: what it adds to the parent's own `files` listing plus the totals of
all listings of its subtree.  Derived quantity used to restructure walk
sums child by child. -/
def childTotal (flt : Option FileFilter) (p : String) (c : FSNode) : Nat :=
  listingTotal flt (fileEntries p c) + ((walkChild p c).map (listingTotal flt)).sum

/-- The walk sum of a directory splits into the sum of its children's
combined contributions. -/
theorem walkRootSum_eq_childTotals (flt : Option FileFilter) (p : String)
    (n : String) (sOk lb : Bool) (cs : List FSNode) :
    ((walkRoot p (.dir n sOk lb cs)).map (listingTotal flt)).sum =
      if lb then (cs.map (childTotal flt p)).sum else 0 := by
  cases lb with
  | false => simp [walkRoot]
  | true =>
      simp only [walkRoot, if_pos]
      induction cs with
      | nil => simp [walkKids, listingTotal]
      | cons c cs ih =>
          simp only [List.flatMap_cons, walkKids, List.map_cons, List.sum_cons]
          simp only [List.map_append, List.sum_append, listingTotal,
            List.map_cons, List.sum_cons] at ih ⊢
          simp only [childTotal, listingTotal]
          omega

/-- The subtree walk sum of a child directory equals the walk sum of that
directory as a root, once the `safe_stat` pruning allows it. -/
theorem walkChildSum_eq (flt : Option FileFilter) (p : String)
    (n : String) (sOk lb : Bool) (cs : List FSNode) :
    ((walkChild p (.dir n sOk lb cs)).map (listingTotal flt)).sum =
      if sOk then
        ((walkRoot (joinPath p n) (.dir n sOk lb cs)).map (listingTotal flt)).sum
      else 0 := by
  cases sOk with
  | false => simp [walkChild]
  | true =>
      cases lb with
      | false => simp [walkChild, walkRoot]
      | true => simp [walkChild, walkRoot]

/-- With no filter, the combined walk contribution of a child free of
non-directory symlinks is its spec contribution, assuming its own subtree
walk already agrees with the spec. -/
theorem childTotal_none_eq_specSumChild (p : String) (c : FSNode)
    (hc : cleanLinks c = true)
    (hrec : ∀ p', ((walkRoot p' c).map (listingTotal none)).sum = specSum c) :
    childTotal none p c = specSumChild c := by
  cases c with
  | file n sz ok =>
      cases ok <;>
        simp [childTotal, fileEntries, walkChild, listingTotal, entryContrib,
          passes, specSumChild]
  | symlink n isDir ls =>
      have : isDir = true := by simpa [cleanLinks] using hc
      subst this
      simp [childTotal, fileEntries, walkChild, listingTotal, specSumChild]
  | dir n sOk lb cs =>
      have h := hrec (joinPath p n)
      simp only [specSum] at h
      simp only [childTotal, fileEntries, listingTotal, List.map_nil,
        List.sum_nil, walkChildSum_eq, h, specSumChild]
      cases sOk <;> cases lb <;> simp

/-- With no filter, the walk sum over a tree free of non-directory symlinks
is exactly the specification's aggregate. -/
theorem walkSum_none_eq_specSum :
    ∀ t, cleanLinks t = true →
      ∀ p, ((walkRoot p t).map (listingTotal none)).sum = specSum t := by
  intro t
  induction t using FSNode.memRec with
  | hfile n sz ok => intro _ p; simp [walkRoot, specSum]
  | hsym n d ls => intro _ p; simp [walkRoot, specSum]
  | hdir n sOk lb cs ih =>
      intro hclean p
      have hlist : cleanLinksList cs = true := by simpa [cleanLinks] using hclean
      rw [walkRootSum_eq_childTotals, specSum]
      cases lb with
      | false => simp
      | true =>
          simp only [if_pos]
          clear hclean
          induction cs with
          | nil => simp [specSumKids]
          | cons c cs ihcs =>
              have hc : cleanLinks c = true := by
                simp only [cleanLinksList, Bool.and_eq_true] at hlist
                exact hlist.1
              have hcs : cleanLinksList cs = true := by
                simp only [cleanLinksList, Bool.and_eq_true] at hlist
                exact hlist.2
              simp only [List.map_cons, List.sum_cons, specSumKids]
              rw [childTotal_none_eq_specSumChild p c hc (ih c (List.mem_cons_self c cs) hc),
                ihcs (fun c' hc' => ih c' (List.mem_cons_of_mem c hc')) hcs]

/-- With the size-threshold filter, the combined walk contribution of a
clean child is its filtered spec contribution. -/
theorem childTotal_ge_eq_specSumGEChild (k : Nat) (p : String) (c : FSNode)
    (hc : cleanLinks c = true)
    (hrec : ∀ p',
      ((walkRoot p' c).map (listingTotal (some (geFilter k)))).sum = specSumGE k c) :
    childTotal (some (geFilter k)) p c = specSumGEChild k c := by
  cases c with
  | file n sz ok =>
      cases ok with
      | false =>
          simp [childTotal, fileEntries, walkChild, listingTotal, entryContrib,
            specSumGEChild]
      | true =>
          simp only [childTotal, fileEntries, walkChild, listingTotal,
            entryContrib, passes, geFilter, specSumGEChild, List.map_cons,
            List.map_nil, List.sum_cons, List.sum_nil, if_true, Bool.true_and]
          by_cases h : k ≤ sz <;> simp [h]
  | symlink n isDir ls =>
      have : isDir = true := by simpa [cleanLinks] using hc
      subst this
      simp [childTotal, fileEntries, walkChild, listingTotal, specSumGEChild]
  | dir n sOk lb cs =>
      have h := hrec (joinPath p n)
      simp only [specSumGE] at h
      simp only [childTotal, fileEntries, listingTotal, List.map_nil,
        List.sum_nil, walkChildSum_eq, h, specSumGEChild]
      cases sOk <;> cases lb <;> simp

/-- With the size-threshold filter, the walk sum over a clean tree is
exactly the spec's sum restricted to files of size at least `k`. -/
theorem walkSum_ge_eq_specSumGE (k : Nat) :
    ∀ t, cleanLinks t = true →
      ∀ p, ((walkRoot p t).map (listingTotal (some (geFilter k)))).sum =
        specSumGE k t := by
  intro t
  induction t using FSNode.memRec with
  | hfile n sz ok => intro _ p; simp [walkRoot, specSumGE]
  | hsym n d ls => intro _ p; simp [walkRoot, specSumGE]
  | hdir n sOk lb cs ih =>
      intro hclean p
      have hlist : cleanLinksList cs = true := by simpa [cleanLinks] using hclean
      rw [walkRootSum_eq_childTotals, specSumGE]
      cases lb with
      | false => simp
      | true =>
          simp only [if_pos]
          clear hclean
          induction cs with
          | nil => simp [specSumGEKids]
          | cons c cs ihcs =>
              have hc : cleanLinks c = true := by
                simp only [cleanLinksList, Bool.and_eq_true] at hlist
                exact hlist.1
              have hcs : cleanLinksList cs = true := by
                simp only [cleanLinksList, Bool.and_eq_true] at hlist
                exact hlist.2
              simp only [List.map_cons, List.sum_cons, specSumGEKids]
              rw [childTotal_ge_eq_specSumGEChild k p c hc (ih c (List.mem_cons_self c cs) hc),
                ihcs (fun c' hc' => ih c' (List.mem_cons_of_mem c hc')) hcs]

/-- When no child contributes a qualifying file, the filtered spec sum of a
children list vanishes. -/
theorem specSumGEKids_eq_zero (k : Nat) :
    ∀ cs : List FSNode,
      (∀ c ∈ cs, hasQualChild k c = false → specSumGEChild k c = 0) →
      hasQualKids k cs = false → specSumGEKids k cs = 0 := by
  intro cs
  induction cs with
  | nil => intro _ _; simp [specSumGEKids]
  | cons c cs ih =>
      intro hmem hq
      simp only [hasQualKids, Bool.or_eq_false_iff] at hq
      simp only [specSumGEKids, hmem c (List.mem_cons_self c cs) hq.1,
        ih (fun c' hc' => hmem c' (List.mem_cons_of_mem c hc')) hq.2]

/-- A child that contributes no qualifying file contributes zero to the
filtered spec sum. -/
theorem specSumGEChild_eq_zero (k : Nat) :
    ∀ c, hasQualChild k c = false → specSumGEChild k c = 0 := by
  intro c
  induction c using FSNode.memRec with
  | hfile n sz ok =>
      intro h
      simp only [hasQualChild] at h
      simp [specSumGEChild, h]
  | hsym n d ls => intro _; simp [specSumGEChild]
  | hdir n sOk lb cs ih =>
      intro h
      simp only [hasQualChild, Bool.and_eq_false_iff] at h
      simp only [specSumGEChild]
      rcases h with h | h
      · rcases h with h | h <;> simp [h]
      · cases hs : (sOk && lb) with
        | false => simp
        | true =>
            simp only [if_pos]
            exact specSumGEKids_eq_zero k cs
              (fun c' hc' => ih c' hc') h

/-- A directory tree containing no qualifying file has filtered spec sum
zero. -/
theorem specSumGE_eq_zero (k : Nat) (t : FSNode)
    (h : hasQual k t = false) : specSumGE k t = 0 := by
  cases t with
  | file n sz ok => simp [specSumGE]
  | symlink n d ls => simp [specSumGE]
  | dir n sOk lb cs =>
      simp only [hasQual, Bool.and_eq_false_iff] at h
      simp only [specSumGE]
      rcases h with h | h
      · simp [h]
      · cases lb with
        | false => simp
        | true =>
            simp only [if_pos]
            exact specSumGEKids_eq_zero k cs
              (fun c' _ => specSumGEChild_eq_zero k c') h

/-- Without cancellation, one scandir-loop iteration of
`list_top_level_items` yields exactly the spec's entry for that child. -/
theorem topEntry_never_items (flt : Option FileFilter) (folder : String)
    (c : FSNode) (i : Nat) :
    (topEntry flt neverCancel folder c i).items =
      (specTopItem flt folder c).toList := by
  cases c with
  | file n sz ok =>
      by_cases h : passes flt (joinPath folder n) (if ok then sz else 0) = true <;>
        simp [topEntry, specTopItem, h]
  | symlink n d ls => simp [topEntry, specTopItem]
  | dir n sOk lb cs =>
      simp [topEntry, specTopItem, computeDirSize, computeDirSizeNC,
        runWalk_never]

/-- Without cancellation, the whole scandir loop of `list_top_level_items`
returns exactly one entry per child as described by `specTopItem`,
independently of the cancellation-check index it starts at. -/
theorem topLoop_never_items (flt : Option FileFilter) (folder : String) :
    ∀ (cs : List FSNode) (i : Nat),
      (topLoop flt neverCancel folder cs i).items =
        cs.filterMap (specTopItem flt folder) := by
  intro cs
  induction cs with
  | nil => intro i; simp [topLoop]
  | cons c cs ih =>
      intro i
      simp only [topLoop, topEntry_never_items, ih, List.filterMap_cons]
      cases h : specTopItem flt folder c <;> simp [h]

/-- Without cancellation, `list_top_level_items` on a listable folder is
exactly the per-child `specTopItem` filter-map. -/
theorem listTopLevelItemsNC_eq_filterMap (flt : Option FileFilter)
    (folder : String) (n : String) (sOk : Bool) (cs : List FSNode) :
    listTopLevelItemsNC flt folder (.dir n sOk true cs) =
      cs.filterMap (specTopItem flt folder) := by
  simp [listTopLevelItemsNC, listTopLevelItemsFull, topLoop_never_items]

/-- Reordering the filesystem enumeration does not change any walk sum. -/
theorem PTree.walkSum {t t' : FSNode} (h : PTree t t') :
    ∀ (flt : Option FileFilter) (p : String),
      ((walkRoot p t).map (listingTotal flt)).sum =
        ((walkRoot p t').map (listingTotal flt)).sum := by
  induction h with
  | file n sz ok => intro flt p; rfl
  | symlink n d ls => intro flt p; rfl
  | dir n sOk lb ps cs' hps hperm ih =>
      intro flt p
      rw [walkRootSum_eq_childTotals, walkRootSum_eq_childTotals]
      cases lb with
      | false => rfl
      | true =>
          simp only [if_pos]
          have hpoint : ∀ q ∈ ps,
              childTotal flt p q.1 = childTotal flt p q.2 := by
            intro q hq
            have hsum := ih q hq
            have hpt := hps q hq
            obtain ⟨a, b⟩ := q
            cases hpt with
            | file m sz ok => rfl
            | symlink m d ls => rfl
            | dir m mOk mLb ps2 cs2 hps2 hperm2 =>
                simp only [childTotal, fileEntries, listingTotal,
                  List.map_nil, List.sum_nil, walkChildSum_eq]
                rw [hsum flt (joinPath p m)]
          calc ((ps.map Prod.fst).map (childTotal flt p)).sum
              = (ps.map (fun q => childTotal flt p q.1)).sum := by
                rw [List.map_map]; rfl
            _ = (ps.map (fun q => childTotal flt p q.2)).sum := by
                rw [List.map_congr_left hpoint]
            _ = ((ps.map Prod.snd).map (childTotal flt p)).sum := by
                rw [List.map_map]; rfl
            _ = (cs'.map (childTotal flt p)).sum :=
                (hperm.map (childTotal flt p)).sum_eq

/-- Reordering the filesystem enumeration does not change the item a child
produces in `list_top_level_items`. -/
theorem specTopItem_congr (flt : Option FileFilter) (folder : String)
    {a b : FSNode} (h : PTree a b) :
    specTopItem flt folder a = specTopItem flt folder b := by
  cases h with
  | file n sz ok => rfl
  | symlink n d ls => rfl
  | dir n sOk lb ps cs' hps hperm =>
      simp only [specTopItem, Option.some.injEq, ItemSize.mk.injEq, true_and,
        and_true]
      rw [computeDirSizeNC_eq_walkSum, computeDirSizeNC_eq_walkSum]
      exact (PTree.dir n sOk lb ps cs' hps hperm).walkSum flt (joinPath folder n)

/-- Two enumerations of the same unmodified folder produce permutations of
the same item list. -/
theorem listNC_perm (flt : Option FileFilter) (folder : String)
    {t t' : FSNode} (h : PTree t t') :
    (listTopLevelItemsNC flt folder t).Perm (listTopLevelItemsNC flt folder t') := by
  cases h with
  | file n sz ok => exact List.Perm.refl _
  | symlink n d ls => exact List.Perm.refl _
  | dir n sOk lb ps cs' hps hperm =>
      cases lb with
      | false => exact List.Perm.refl _
      | true =>
          rw [listTopLevelItemsNC_eq_filterMap, listTopLevelItemsNC_eq_filterMap]
          have h1 : (ps.map Prod.fst).filterMap (specTopItem flt folder) =
              (ps.map Prod.snd).filterMap (specTopItem flt folder) := by
            rw [List.filterMap_map, List.filterMap_map]
            exact List.filterMap_congr
              (fun q hq => specTopItem_congr flt folder (hps q hq))
          rw [h1]
          exact hperm.filterMap (specTopItem flt folder)

/-- Every message produced by a progress callback is a progress message,
never a terminal one. -/
theorem progress_not_terminal (ps : List String) :
    ∀ m ∈ ps.flatMap progressMsg, m.isTerminal = false := by
  intro m hm
  rcases List.mem_flatMap.mp hm with ⟨p, _, hmp⟩
  by_cases h : 0 < p.length
  · simp only [progressMsg, if_pos h, List.mem_singleton] at hmp
    subst hmp
    rfl
  · simp [progressMsg, if_neg h] at hmp

/-- The message sequence of a scan worker is its progress messages followed
by the single `done` terminal. -/
theorem scanWorkerEvents_eq (folder : String) (minSize : Nat)
    (includeSub thresholdMode : Bool) (cc : Nat → Bool) (t : FSNode) :
    scanWorkerEvents folder minSize includeSub thresholdMode cc t =
      ((listTopLevelItemsFull
          (if thresholdMode then some (geFilter minSize) else none)
          cc folder t).visited.flatMap progressMsg) ++
        [.done (scanItems folder minSize includeSub thresholdMode cc t)] := rfl

/-- The concrete tree of spec §8: a root `R` containing `a.txt` (10 bytes),
`b.bin` (20 bytes) and a folder `C` containing `c.txt` (5 bytes) and an
inaccessible folder `D` (its listing fails with permission denied). -/
def treeR : FSNode :=
  .dir "R" true true
    [.file "a.txt" 10 true, .file "b.bin" 20 true,
     .dir "C" true true [.file "c.txt" 5 true, .dir "D" true false []]]

/-- A root directory containing a single symbolic link whose target is not
a directory and whose own lstat reports `st_size = 10` (on POSIX, a link
whose stored target path is 10 bytes long). -/
def treeLink : FSNode := .dir "R" true true [.symlink "s" false 10]

/-- A root directory whose own listing fails (the root path vanished or
became inaccessible between validation and scanning). -/
def treeGone : FSNode := .dir "R" true false [.file "x" 3 true]

/-- A root with two empty subdirectories, in enumeration order A, B. -/
def treeAB : FSNode :=
  .dir "R" true true [.file "a" 1 true, .file "b" 2 true]

/-- The same filesystem as `treeAB` enumerated in the opposite order. -/
def treeBA : FSNode :=
  .dir "R" true true [.file "b" 2 true, .file "a" 1 true]

/-- A root with two empty subdirectories (no files, hence no progress
messages during its scan). -/
def treeDirs : FSNode :=
  .dir "R" true true [.dir "A" true true [], .dir "B" true true []]

/-- A cancellation flag that flips to true just before the second check. -/
def ccAfter1 : Nat → Bool := fun i => decide (1 ≤ i)

/-- An initial drill-down state: nothing cached, the root scan's (empty)
item list as frame 0, no scan sessions started yet. -/
def drillS0 : DrillState := ⟨fun _ => .notLoaded, [[]], 0⟩

/-- C1: the claim is false as stated: on a tree whose only entry is a
symbolic link (target not a directory, lstat size 10), the set of regular
files is empty, and the claim demands that the symlink contribute neither a
file nor a directory contribution, so the total would be 0; but
`compute_dir_size` returns 10, because `os.walk` classifies the link as a
non-directory entry and `safe_stat(..., follow_symlinks=False)` succeeds on
it, so its own lstat size is added. -/
theorem c1_counterexample :
    computeDirSizeNC none "R" treeLink = 10 ∧ specSum treeLink = 0 := by
  decide

/-- C1 (amended): with no filter and no cancellation, `compute_dir_size`
returns the sum of the sizes of all lstat-accessible regular files
reachable without following symbolic links (inaccessible subtrees
contributing 0), provided the tree contains no symbolic link whose target
is a non-directory; such links additionally contribute their own lstat
size, symlinked directories contribute nothing. -/
theorem c1_aggregate_eq_spec (p : String) (t : FSNode)
    (h : cleanLinks t = true) :
    computeDirSizeNC none p t = specSum t := by
  rw [computeDirSizeNC_eq_walkSum]
  exact walkSum_none_eq_specSum t h p

/-- Witness for C1 (amended) on the concrete tree of spec §8. -/
theorem c1_witness :
    cleanLinks treeR = true ∧ computeDirSizeNC none "R" treeR = specSum treeR :=
  ⟨by decide, c1_aggregate_eq_spec "R" treeR (by decide)⟩

/-- C2: the claim is false as stated: with `minSizeBytes = 15` on the §8
tree, the worker's post-hoc filter `it.size >= min_size` removes folder `C`
in both modes (its total is 5 without filter propagation and 0 with it, and
both are below 15), so the threshold-off scan delivers `[b.bin]` — not the
claimed `[{b.bin,20,File}, {C,5,Directory}]` in any order — and the two
settings deliver identical final item lists, not two distinct outcomes. -/
theorem c2_counterexample :
    (¬ ((scanItems "R" 15 false false neverCancel treeR).map itemTriple).Perm
        [("b.bin", 20, false), ("C", 5, true)]) ∧
    scanItems "R" 15 false false neverCancel treeR =
      scanItems "R" 15 true true neverCancel treeR := by
  constructor
  · decide
  · decide

/-- C2 (amended): on the §8 tree with `minSizeBytes = 15`, the two filter
placements do produce distinct aggregates at the listing stage — threshold
off yields `[a.txt 10, b.bin 20, C 5]` while threshold on changes `C`'s
aggregated total to 0, yielding `[b.bin 20, C 0]` — but the worker then
applies the post-hoc filter `it.size >= 15` to every item in both modes,
so both final `Done` payloads are exactly `[b.bin 20]`. -/
theorem c2_two_modes :
    (listTopLevelItemsNC none "R" treeR).map itemTriple =
      [("a.txt", 10, false), ("b.bin", 20, false), ("C", 5, true)] ∧
    (listTopLevelItemsNC (some (geFilter 15)) "R" treeR).map itemTriple =
      [("b.bin", 20, false), ("C", 0, true)] ∧
    (scanItems "R" 15 false false neverCancel treeR).map itemTriple =
      [("b.bin", 20, false)] ∧
    (scanItems "R" 15 true true neverCancel treeR).map itemTriple =
      [("b.bin", 20, false)] := by
  refine ⟨by decide, by decide, by decide, by decide⟩

/-- C3: without cancellation, `list_top_level_items` on a listable folder
returns exactly one entry per non-symlink immediate child: a symlink yields
nothing, a file yields its item iff it passes the filter, and every
non-symlink subdirectory unconditionally yields a `Directory` item carrying
its aggregated size — in particular a directory whose entire content is
filtered out still appears, with aggregated size 0. -/
theorem c3_scan_children_exact (flt : Option FileFilter) (folder : String)
    (n : String) (sOk : Bool) (cs : List FSNode) :
    listTopLevelItemsNC flt folder (.dir n sOk true cs) =
      cs.filterMap (specTopItem flt folder) :=
  listTopLevelItemsNC_eq_filterMap flt folder n sOk cs

/-- C4: when the cancellation flag first reads true at the `j`-th check,
`compute_dir_size` returns the sum accumulated over the first `j` directory
listings of the walk and consumes at most `j` checks — it processes no
listing beyond the first `j`, so after cancellation is observed the only
extra work is the single already-yielded (in-flight) listing, which is
abandoned unprocessed. -/
theorem c4_cancellation_bound (flt : Option FileFilter) (cc : Nat → Bool)
    (p : String) (t : FSNode) (j : Nat)
    (hfalse : ∀ i, i < j → cc i = false) (htrue : cc j = true) :
    (computeDirSize flt cc p t 0).total =
      (((walkRoot p t).take j).map (listingTotal flt)).sum ∧
    (computeDirSize flt cc p t 0).next ≤ j := by
  have h := runWalk_cancel_at flt cc j (walkRoot p t) 0 0
    (fun k hk => by simpa using hfalse k hk) (by simpa using htrue)
  rw [computeDirSize, h]
  exact ⟨by simp, by simp [Nat.min_le_left]⟩

/-- Witness for C4: on the §8 tree with a flag that flips before the second
check, the walk returns the total of the root listing alone (10 + 20) and
consumes exactly one check. -/
theorem c4_witness :
    ccAfter1 1 = true ∧ (∀ i, i < 1 → ccAfter1 i = false) ∧
    ((computeDirSize none ccAfter1 "R" treeR 0).total =
        (((walkRoot "R" treeR).take 1).map (listingTotal none)).sum ∧
      (computeDirSize none ccAfter1 "R" treeR 0).next ≤ 1) :=
  ⟨by decide, by decide,
    c4_cancellation_bound none ccAfter1 "R" treeR 1 (by decide) (by decide)⟩

/-- C5: for every folder, filter configuration, cancellation behaviour and
tree, the scan worker's message sequence contains exactly one terminal
message, it is the last message, and it is `done` with the collected
(possibly truncated by cancellation) filtered and sorted items — never an
`error` and never a distinct cancelled outcome. -/
theorem c5_single_terminal (folder : String) (minSize : Nat)
    (includeSub thresholdMode : Bool) (cc : Nat → Bool) (t : FSNode) :
    (scanWorkerEvents folder minSize includeSub thresholdMode cc t).countP
        ScanMsg.isTerminal = 1 ∧
    (scanWorkerEvents folder minSize includeSub thresholdMode cc t).getLast? =
      some (.done (scanItems folder minSize includeSub thresholdMode cc t)) := by
  rw [scanWorkerEvents_eq]
  constructor
  · rw [List.countP_append]
    have h0 : (((listTopLevelItemsFull
        (if thresholdMode then some (geFilter minSize) else none)
        cc folder t).visited.flatMap progressMsg)).countP ScanMsg.isTerminal = 0 := by
      rw [List.countP_eq_zero]
      intro m hm
      simp [progress_not_terminal _ m hm]
    rw [h0]
    rfl
  · exact List.getLast?_concat _

/-- C6: the claim is false as stated: when the root path itself vanishes or
becomes unlistable, the blanket `except Exception: pass` inside
`list_top_level_items` swallows the failure too, so the session terminates
with `Done([])` — an empty success — not with the `Error(reason)` terminal
the claim reserves for root failures. -/
theorem c6_counterexample :
    scanWorkerEvents "R" 0 false false neverCancel treeGone =
      [.done []] := by
  decide

/-- C6 (amended): failures on individual entries are recovered locally — an
unlistable subdirectory still yields its item with aggregated size 0 while
its siblings are listed unchanged — and no filesystem failure is ever
surfaced: the worker's message sequence never contains an `error` message;
a failure of the root path itself is likewise swallowed and yields
`Done([])` rather than `Error(reason)`. -/
theorem c6_errors_recovered_locally :
    (∀ (folder : String) (minSize : Nat) (includeSub thresholdMode : Bool)
        (cc : Nat → Bool) (t : FSNode),
      (scanWorkerEvents folder minSize includeSub thresholdMode cc t).countP
        ScanMsg.isErrorMsg = 0) ∧
    (∀ (flt : Option FileFilter) (folder n m : String) (sOk mOk : Bool)
        (ds : List FSNode) (cs₁ cs₂ : List FSNode),
      listTopLevelItemsNC flt folder
          (.dir n sOk true (cs₁ ++ .dir m mOk false ds :: cs₂)) =
        cs₁.filterMap (specTopItem flt folder) ++
          ⟨m, joinPath folder m, 0, true⟩ ::
            cs₂.filterMap (specTopItem flt folder)) := by
  constructor
  · intro folder minSize includeSub thresholdMode cc t
    rw [scanWorkerEvents_eq, List.countP_append, List.countP_eq_zero.mpr,
      Nat.zero_add]
    · rfl
    · intro m hm
      rcases List.mem_flatMap.mp hm with ⟨p, _, hmp⟩
      by_cases h : 0 < p.length
      · simp only [progressMsg, if_pos h, List.mem_singleton] at hmp
        subst hmp
        simp [ScanMsg.isErrorMsg]
      · simp [progressMsg, if_neg h] at hmp
  · intro flt folder n m sOk mOk ds cs₁ cs₂
    rw [listTopLevelItemsNC_eq_filterMap, List.filterMap_append,
      List.filterMap_cons]
    have hbad : specTopItem flt folder (.dir m mOk false ds) =
        some ⟨m, joinPath folder m, 0, true⟩ := by
      simp [specTopItem, computeDirSizeNC, computeDirSize, walkRoot, runWalk]
    rw [hbad]

/-- C7: the claim is false as stated: with threshold `K = 1` on a tree
whose only entry is a symbolic link of lstat size 10, there is no regular
file at all — let alone a qualifying one — so the claimed total is 0, yet
`compute_dir_size` with the `size >= K` filter returns 10, because the
symlink's own lstat size passes the filter. -/
theorem c7_counterexample :
    computeDirSizeNC (some (geFilter 1)) "R" treeLink = 10 ∧
    specSumGE 1 treeLink = 0 ∧ hasQual 1 treeLink = false := by
  decide

/-- C7 (amended): on a tree with no non-directory symbolic link,
`compute_dir_size` with the filter `size >= K` returns exactly the sum of
the sizes of the reachable regular files of size at least `K`, and a tree
with no qualifying file aggregates to 0; non-directory symlinks would
additionally contribute their own lstat size whenever it passes the
filter. -/
theorem c7_filter_correct (k : Nat) (p : String) (t : FSNode)
    (h : cleanLinks t = true) :
    computeDirSizeNC (some (geFilter k)) p t = specSumGE k t ∧
    (hasQual k t = false → computeDirSizeNC (some (geFilter k)) p t = 0) := by
  have h1 : computeDirSizeNC (some (geFilter k)) p t = specSumGE k t := by
    rw [computeDirSizeNC_eq_walkSum]
    exact walkSum_ge_eq_specSumGE k t h p
  exact ⟨h1, fun hq => by rw [h1]; exact specSumGE_eq_zero k t hq⟩

/-- Witness for C7 (amended) on the §8 tree with threshold 15. -/
theorem c7_witness :
    cleanLinks treeR = true ∧
    (computeDirSizeNC (some (geFilter 15)) "R" treeR = specSumGE 15 treeR ∧
      (hasQual 15 treeR = false →
        computeDirSizeNC (some (geFilter 15)) "R" treeR = 0)) :=
  ⟨by decide, c7_filter_correct 15 "R" treeR (by decide)⟩

/-- C8: scanning the same unmodified tree twice — the second run observing
the children of every directory in a possibly different enumeration
order — yields the same multiset of `(label, size, kind)` triples: the two
runs' triple lists are permutations of each other. -/
theorem c8_idempotent_multiset (flt : Option FileFilter) (folder : String)
    {t t' : FSNode} (h : PTree t t') :
    ((listTopLevelItemsNC flt folder t).map itemTriple).Perm
      ((listTopLevelItemsNC flt folder t').map itemTriple) :=
  (listNC_perm flt folder h).map itemTriple

/-- Witness for C8: two enumerations of the same two-file folder in
opposite orders. -/
theorem c8_witness :
    PTree treeAB treeBA ∧
    ((listTopLevelItemsNC none "R" treeAB).map itemTriple).Perm
      ((listTopLevelItemsNC none "R" treeBA).map itemTriple) := by
  have hpt : PTree treeAB treeBA := by
    have h := PTree.dir "R" true true
      [(.file "a" 1 true, .file "a" 1 true), (.file "b" 2 true, .file "b" 2 true)]
      [.file "b" 2 true, .file "a" 1 true]
      (by
        intro q hq
        rcases List.mem_cons.mp hq with h1 | h1
        · subst h1; exact PTree.file "a" 1 true
        · rcases List.mem_cons.mp h1 with h2 | h2
          · subst h2; exact PTree.file "b" 2 true
          · cases h2)
      (by
        have hsw : ([FSNode.file "a" 1 true, FSNode.file "b" 2 true] :
            List FSNode).Perm [FSNode.file "b" 2 true, FSNode.file "a" 1 true] :=
          List.Perm.swap (FSNode.file "b" 2 true) (FSNode.file "a" 1 true) []
        simpa using hsw)
    exact h
  exact ⟨hpt, c8_idempotent_multiset none "R" hpt⟩

/-- C9: from any state in which the node is not yet loaded, `expand`
followed by `collapse` followed by `expand` starts exactly one scan
session: the first expand caches the scanned items and bumps the scan
count, and the second expand observes the cache state `Loaded`, pushes the
originally cached items (not a rescan's result) onto the DrillStack and
performs no I/O, leaving the scan count unchanged. -/
theorem c9_no_second_scan (key : String) (its its2 : List ItemSize)
    (s : DrillState) (h : s.cache key = .notLoaded) :
    (expand key its2 (collapse (expand key its s))).scanCount =
        (expand key its s).scanCount ∧
    (expand key its s).scanCount = s.scanCount + 1 ∧
    (collapse (expand key its s)).cache key = .loaded its ∧
    (expand key its2 (collapse (expand key its s))).stack =
      its :: (collapse (expand key its s)).stack := by
  cases hs : s.stack <;> simp [expand, collapse, h, hs]

/-- Witness for C9 starting from the pristine drill-down state. -/
theorem c9_witness :
    drillS0.cache "n" = .notLoaded ∧
    ((expand "n" [] (collapse (expand "n" [⟨"x", "n/x", 1, false⟩] drillS0))).scanCount =
        (expand "n" [⟨"x", "n/x", 1, false⟩] drillS0).scanCount ∧
      (expand "n" [⟨"x", "n/x", 1, false⟩] drillS0).scanCount =
        drillS0.scanCount + 1 ∧
      (collapse (expand "n" [⟨"x", "n/x", 1, false⟩] drillS0)).cache "n" =
        .loaded [⟨"x", "n/x", 1, false⟩] ∧
      (expand "n" [] (collapse (expand "n" [⟨"x", "n/x", 1, false⟩] drillS0))).stack =
        [⟨"x", "n/x", 1, false⟩] ::
          (collapse (expand "n" [⟨"x", "n/x", 1, false⟩] drillS0)).stack) :=
  ⟨rfl, c9_no_second_scan "n" [⟨"x", "n/x", 1, false⟩] [] drillS0 rfl⟩

/-- C10: every item list delivered by a `done` terminal is sorted by size
in non-increasing order — the worker sorts before enqueueing, so the
consumer never needs to sort. -/
theorem c10_done_sorted (folder : String) (minSize : Nat)
    (includeSub thresholdMode : Bool) (cc : Nat → Bool) (t : FSNode)
    (its : List ItemSize)
    (h : ScanMsg.done its ∈
      scanWorkerEvents folder minSize includeSub thresholdMode cc t) :
    its.Sorted sizeDesc := by
  rw [scanWorkerEvents_eq] at h
  rcases List.mem_append.mp h with h | h
  · have := progress_not_terminal _ _ h
    simp [ScanMsg.isTerminal] at this
  · rw [List.mem_singleton] at h
    cases h
    simp only [scanItems]
    exact List.sorted_insertionSort sizeDesc _

/-- Witness for C10 on a folder with two empty subdirectories. -/
theorem c10_witness :
    (ScanMsg.done [⟨"A", "R/A", 0, true⟩, ⟨"B", "R/B", 0, true⟩] ∈
      scanWorkerEvents "R" 0 false false neverCancel treeDirs) ∧
    List.Sorted sizeDesc [⟨"A", "R/A", 0, true⟩, ⟨"B", "R/B", 0, true⟩] := by
  have hm : ScanMsg.done [⟨"A", "R/A", 0, true⟩, ⟨"B", "R/B", 0, true⟩] ∈
      scanWorkerEvents "R" 0 false false neverCancel treeDirs := by decide
  exact ⟨hm, c10_done_sorted "R" 0 false false neverCancel treeDirs _ hm⟩

end FSViz
